import Mathlib

/-!
Verification of the instagram-youtube automation pipeline.

Shallow embedding of the repository's core logic:
- `instauto/summarizer.py` (caption cleaning, hashtag stripping, heuristic
  title/description generation),
- `instauto/downloader.py` (post collection ordering),
- `instauto/watermark.py` (watermark position offsets),
- `instauto/youtube_uploader.py` (upload retry/backoff engine),
- `main.py` (per-profile orchestration loop, metadata lifecycle).

External effects (network responses of the upload API, the remote
summarization model, the clock) are modelled as explicit oracle inputs; the
file system writes performed by the orchestrator are modelled as an event log
carried in the run state.  Machine-level hashing (`hashlib.md5`) is modelled
by a full executable MD5 implementation over `Nat` arithmetic.
-/

/-! ## Character helpers shared by the embedded modules -/

/-- Model of the character class `\w` used by the Python regexes
`#[\w\d_]+` in `summarizer.py` and `main.py` (ASCII fragment). -/
def isWordChar (c : Char) : Bool := c.isAlphanum || c == '_'

/-- Model of the Python `\s` whitespace class / `str.strip` default set
(ASCII fragment): space, tab, newline, carriage return, vertical tab,
form feed. -/
def isPySpace (c : Char) : Bool :=
  c == ' ' || c == '\t' || c == '\n' || c == '\r' || c == '\x0b' || c == '\x0c'

/-- Python `str.strip()` on a list of characters: drop leading and trailing
whitespace. -/
def pyStrip (l : List Char) : List Char :=
  ((l.dropWhile isPySpace).reverse.dropWhile isPySpace).reverse

/-- Worker for `collapseWS`: `inRun` records whether the previous input
character was part of a whitespace run already replaced by a single space. -/
def collapseWSGo (inRun : Bool) : List Char → List Char
  | [] => []
  | c :: rest =>
    if isPySpace c then
      if inRun then collapseWSGo true rest
      else ' ' :: collapseWSGo true rest
    else c :: collapseWSGo false rest

/-- Model of `re.sub(r"\s+", " ", s)`: every maximal whitespace run becomes
one space. -/
def collapseWS (l : List Char) : List Char := collapseWSGo false l

/-- Models `_clean_caption` from `instauto/summarizer.py`:
`re.sub(r"\s+", " ", caption.strip())`. -/
def cleanCaption (s : String) : String :=
  String.mk (collapseWS (pyStrip s.toList))

/-- Worker for `stripTags`.  `inTag` means we are inside the word-character
run of a hashtag match currently being deleted.  A `#` starts a match only
when immediately followed by at least one word character, mirroring the
regex `#[\w\d_]+` with `re.sub(..., "")` (leftmost, non-overlapping). -/
def stripTagsGo (inTag : Bool) : List Char → List Char
  | [] => []
  | c :: rest =>
    if inTag && isWordChar c then stripTagsGo true rest
    else if c == '#' && (match rest with | d :: _ => isWordChar d | [] => false) then
      stripTagsGo true rest
    else c :: stripTagsGo false rest

/-- Model of `re.sub(r"#[\w\d_]+", "", text)` in `_extract_first_sentence`. -/
def stripTags (l : List Char) : List Char := stripTagsGo false l

/-- Worker for `findTags`: `cur = some r` is the reversed word run of the
hashtag currently being matched. -/
def findTagsGo (cur : Option (List Char)) : List Char → List String
  | [] => match cur with | some r => [String.mk r.reverse] | none => []
  | c :: rest =>
    match cur with
    | some r =>
      if isWordChar c then findTagsGo (some (c :: r)) rest
      else
        String.mk r.reverse ::
          (if c == '#' && (match rest with | d :: _ => isWordChar d | [] => false) then
            findTagsGo (some []) rest
          else findTagsGo none rest)
    | none =>
      if c == '#' && (match rest with | d :: _ => isWordChar d | [] => false) then
        findTagsGo (some []) rest
      else findTagsGo none rest

/-- Model of `re.findall(r"#[\w\d_]+", text)` followed by `tag.strip("#")`,
i.e. `extract_hashtags` from `main.py`: the list of hashtag word runs,
without their leading `#`. -/
def findTags (l : List Char) : List String := findTagsGo none l

/-- Models `extract_hashtags` from `main.py`. -/
def extractHashtags (text : String) : List String := findTags text.toList

/-- First index of character `c`, the model of Python `str.find` (which
returns `-1`, here `none`, when absent). -/
def findCharIdx (c : Char) (l : List Char) : Option Nat :=
  l.findIdx? (fun d => d == c)

/-- Models `_extract_first_sentence` from `instauto/summarizer.py`: remove
hashtags, then look for `"."`, then `"!"`, then `"?"` in that order; at the
first of the three characters that occurs anywhere in the text, cut after
its first occurrence and strip. -/
def extractFirstSentence (text : List Char) : List Char :=
  let t := stripTags text
  match findCharIdx '.' t with
  | some i => pyStrip (t.take (i + 1))
  | none =>
    match findCharIdx '!' t with
    | some i => pyStrip (t.take (i + 1))
    | none =>
      match findCharIdx '?' t with
      | some i => pyStrip (t.take (i + 1))
      | none => pyStrip t

/-- Models `_heuristic_title_description` from `instauto/summarizer.py`:
clean the caption; empty input gives `("", "")`; otherwise the title is the
first sentence of the hashtag-stripped text, truncated to 80 characters and
stripped, and the description is the cleaned caption. -/
def heuristicTitleDescription (caption : String) : String × String :=
  let clean := cleanCaption caption
  if clean = "" then ("", "")
  else
    (String.mk (pyStrip ((extractFirstSentence clean.toList).take 80)), clean)

/-- Modelled from the spec claim wording (for comparison with the source
function): the title is the hashtag-stripped caption text taken up to and
including the first sentence terminator among `.`, `!`, `?` occurring in the
text (by position, whichever of the three comes first), truncated to at most
80 characters. -/
def claimTitle (caption : String) : String :=
  let t := stripTags (cleanCaption caption).toList
  match t.findIdx? (fun c => c == '.' || c == '!' || c == '?') with
  | some i => String.mk (pyStrip ((pyStrip (t.take (i + 1))).take 80))
  | none => String.mk (pyStrip ((pyStrip t).take 80))

/-! ## Substring search (Python `in` on strings) -/

/-- Does `pat` occur at the head of `l`? -/
def startsWithChars : List Char → List Char → Bool
  | [], _ => true
  | _ :: _, [] => false
  | p :: ps, c :: cs => p == c && startsWithChars ps cs

/-- Does `pat` occur anywhere in `l`? -/
def containsSubChars (pat : List Char) : List Char → Bool
  | [] => pat.isEmpty
  | c :: rest => startsWithChars pat (c :: rest) || containsSubChars pat rest

/-- Model of the Python expression `pat in s` for strings. -/
def containsSub (s pat : String) : Bool := containsSubChars pat.toList s.toList

/-- Model of Python `str.lower()` on one character (ASCII fragment). -/
def lowerChar (c : Char) : Char :=
  if 65 ≤ c.toNat && c.toNat ≤ 90 then Char.ofNat (c.toNat + 32) else c

/-- Model of Python `str.lower()` (ASCII fragment). -/
def pyLower (s : String) : String := String.mk (s.toList.map lowerChar)

/-! ## MD5 (model of `hashlib.md5(...).hexdigest()` from `main.py`)

All arithmetic is over `Nat` with explicit reduction modulo `2 ^ 32`. -/

/-- UTF-8 encoding of one character, as byte values (model of Python
`str.encode()`). -/
def utf8Bytes (c : Char) : List Nat :=
  let n := c.toNat
  if n < 128 then [n]
  else if n < 2048 then [192 + n / 64, 128 + n % 64]
  else if n < 65536 then [224 + n / 4096, 128 + (n / 64) % 64, 128 + n % 64]
  else [240 + n / 262144, 128 + (n / 4096) % 64, 128 + (n / 64) % 64, 128 + n % 64]

/-- UTF-8 bytes of a string. -/
def strBytes (s : String) : List Nat := (s.toList.map utf8Bytes).flatten

/-- 32-bit truncation. -/
def m32 (x : Nat) : Nat := x % 4294967296

/-- 32-bit left rotation. -/
def rotl32 (x s : Nat) : Nat :=
  (x % 2 ^ (32 - s)) * 2 ^ s + x / 2 ^ (32 - s)

/-- 32-bit bitwise complement. -/
def not32 (x : Nat) : Nat := 4294967295 - m32 x

/-- The 64 MD5 round constants `K[i] = floor(abs(sin(i+1)) * 2^32)`. -/
def md5K : List Nat :=
  [3614090360, 3905402710, 606105819, 3250441966,
   4118548399, 1200080426, 2821735955, 4249261313,
   1770035416, 2336552879, 4294925233, 2304563134,
   1804603682, 4254626195, 2792965006, 1236535329,
   4129170786, 3225465664, 643717713, 3921069994,
   3593408605, 38016083, 3634488961, 3889429448,
   568446438, 3275163606, 4107603335, 1163531501,
   2850285829, 4243563512, 1735328473, 2368359562,
   4294588738, 2272392833, 1839030562, 4259657740,
   2763975236, 1272893353, 4139469664, 3200236656,
   681279174, 3936430074, 3572445317, 76029189,
   3654602809, 3873151461, 530742520, 3299628645,
   4096336452, 1126891415, 2878612391, 4237533241,
   1700485571, 2399980690, 4293915773, 2240044497,
   1873313359, 4264355552, 2734768916, 1309151649,
   4149444226, 3174756917, 718787259, 3951481745]

/-- The MD5 per-round left-rotation amounts. -/
def md5S : List Nat :=
  [7, 12, 17, 22, 7, 12, 17, 22, 7, 12, 17, 22, 7, 12, 17, 22,
   5, 9, 14, 20, 5, 9, 14, 20, 5, 9, 14, 20, 5, 9, 14, 20,
   4, 11, 16, 23, 4, 11, 16, 23, 4, 11, 16, 23, 4, 11, 16, 23,
   6, 10, 15, 21, 6, 10, 15, 21, 6, 10, 15, 21, 6, 10, 15, 21]

/-- One MD5 round applied to the state `(a, b, c, d)` with message words
`w` and round index `i`. -/
def md5Round (w : List Nat) (st : Nat × Nat × Nat × Nat) (i : Nat) :
    Nat × Nat × Nat × Nat :=
  let (a, b, c, d) := st
  let f :=
    if i < 16 then Nat.lor (Nat.land b c) (Nat.land (not32 b) d)
    else if i < 32 then Nat.lor (Nat.land d b) (Nat.land (not32 d) c)
    else if i < 48 then Nat.xor b (Nat.xor c d)
    else Nat.xor c (Nat.lor b (not32 d))
  let g :=
    if i < 16 then i
    else if i < 32 then (5 * i + 1) % 16
    else if i < 48 then (3 * i + 5) % 16
    else (7 * i) % 16
  let tmp := m32 (a + f + md5K.getD i 0 + w.getD g 0)
  let b2 := m32 (b + rotl32 tmp (md5S.getD i 0))
  (d, b2, b, c)

/-- Split the padded byte stream into 64-byte blocks. -/
def chunk64Go (acc : List Nat) (n : Nat) : List Nat → List (List Nat)
  | [] => if acc.isEmpty then [] else [acc.reverse]
  | b :: rest =>
    if n = 63 then (b :: acc).reverse :: chunk64Go [] 0 rest
    else chunk64Go (b :: acc) (n + 1) rest

/-- Little-endian 32-bit words from bytes. -/
def toWords : List Nat → List Nat
  | b0 :: b1 :: b2 :: b3 :: rest =>
    (b0 + 256 * b1 + 65536 * b2 + 16777216 * b3) :: toWords rest
  | _ => []

/-- Process one 64-byte block. -/
def md5Block (st : Nat × Nat × Nat × Nat) (block : List Nat) :
    Nat × Nat × Nat × Nat :=
  let w := toWords block
  let (a0, b0, c0, d0) := st
  let (a, b, c, d) := (List.range 64).foldl (md5Round w) (a0, b0, c0, d0)
  (m32 (a0 + a), m32 (b0 + b), m32 (c0 + c), m32 (d0 + d))

/-- MD5 padding: append `0x80`, zero-fill to 56 mod 64, then the bit length
as a little-endian 64-bit quantity. -/
def md5Pad (msg : List Nat) : List Nat :=
  let len := msg.length
  let zeros := (56 + 64 - (len + 1) % 64) % 64
  let bitLen := (8 * len) % 2 ^ 64
  msg ++ [128] ++ List.replicate zeros 0 ++
    ((List.range 8).map (fun i => bitLen / 2 ^ (8 * i) % 256))

/-- Little-endian bytes of a 32-bit word. -/
def wordBytes (x : Nat) : List Nat :=
  [x % 256, x / 256 % 256, x / 65536 % 256, x / 16777216 % 256]

/-- Lowercase hexadecimal digit. -/
def hexDigit (n : Nat) : Char :=
  if n < 10 then Char.ofNat (48 + n) else Char.ofNat (87 + n)

/-- Two lowercase hex digits of a byte. -/
def byteHex (b : Nat) : List Char := [hexDigit (b / 16), hexDigit (b % 16)]

/-- MD5 digest of a byte stream, as the 16 output bytes. -/
def md5Bytes (msg : List Nat) : List Nat :=
  let blocks := chunk64Go [] 0 (md5Pad msg)
  let (a, b, c, d) :=
    blocks.foldl md5Block (1732584193, 4023233417, 2562383102, 271733878)
  wordBytes a ++ wordBytes b ++ wordBytes c ++ wordBytes d

/-- Model of `hashlib.md5(s.encode()).hexdigest()`. -/
def md5Hex (s : String) : String :=
  String.mk (((md5Bytes (strBytes s)).map byteHex).flatten)

/-! ## Data model (`instauto/downloader.py` and `main.py`) -/

/-- One media file of a post: its file name and its extension (Python
`Path.name` and `Path.suffix`). -/
structure MediaFile where
  name : String
  suffix : String
deriving DecidableEq, Repr

/-- Models the `PostInfo` dataclass of `instauto/downloader.py`.  The
`datetime` timestamp is modelled as a `Nat` time value (comparison is all
the code uses), `none` when `_parse_timestamp` failed. -/
structure PostInfo where
  base_name : String
  media_files : List MediaFile
  caption : String
  timestamp : Option Nat
deriving DecidableEq, Repr

/-- One entry of the `upload_details` mapping written by `process_profile`
(`main.py`): platform id, upload wall-clock time, HD flag, retry count. -/
structure UploadDetail where
  video_id : String
  uploaded_at : String
  hd_ready : Bool
  retries : Nat
deriving DecidableEq, Repr

/-- The persisted per-post metadata JSON document built by
`process_profile` in `main.py`. -/
structure PostMeta where
  caption : String
  title : String
  description : String
  tags : List String
  uploaded : Bool
  video_ids : List String
  uploads : List String
  content_hash : String
  first_seen : String
  upload_details : List (String × UploadDetail)
deriving DecidableEq, Repr

/-! ## Upload engine (`instauto/youtube_uploader.py`) -/

/-- `MAX_RETRIES` from `instauto/youtube_uploader.py`. -/
def MAX_RETRIES : Nat := 3

/-- `RETRY_DELAYS` from `instauto/youtube_uploader.py` (seconds slept before
retry attempt `i` is `RETRY_DELAYS[i - 1]`). -/
def RETRY_DELAYS : List Nat := [5, 15, 30]

/-- The outcome the platform produces for one attempt of the chunked upload
loop inside `upload_video`:
- `ok id`: the resumable transfer completed and the final response carried
  `response.get("id") = id` (`none` models a missing `"id"` key);
- `httpErr status content`: a `googleapiclient` `HttpError` with the given
  `e.resp.status` (`none` when `e.resp` is `None`) and decoded content;
- `exc msg`: any other exception raised during the attempt. -/
inductive AttemptOutcome where
  | ok (videoId : Option String)
  | httpErr (status : Option Nat) (content : String)
  | exc (msg : String)
deriving DecidableEq, Repr

/-- The `result` dict built by `upload_video`. -/
structure UploadResult where
  success : Bool
  hd_ready : Bool
  error : Option String
  retries : Nat
  test_only : Bool
deriving DecidableEq, Repr

/-- The observable behaviour of one real (non-test-mode) `upload_video`
call: its return value `(videoId, result)`, how many attempts were started,
and the backoff sleeps performed between consecutive attempts. -/
structure UploadRun where
  videoId : Option String
  result : UploadResult
  attemptsMade : Nat
  sleeps : List Nat
deriving DecidableEq, Repr

/-- The error message of the `RuntimeError` raised when the final response
has no video id; it is caught by the generic `except Exception` handler of
the same retry loop. -/
def missingIdMsg : String := "Upload succeeded but no video ID returned"

/-- The quota-exhaustion phrasings recognized by `upload_video`. -/
def quotaReasonA : String := "uploadLimitExceeded"

/-- Second quota phrasing recognized by `upload_video`. -/
def quotaReasonB : String := "The user has exceeded the number of videos they may upload"

/-- The `for attempt in range(MAX_RETRIES)` loop of `upload_video`
(`instauto/youtube_uploader.py`, real-upload path).  `remaining` is the
fuel left in the bounded loop, `i` the 0-based attempt index, `res` the
`result` dict accumulated so far and `sleeps` the backoff sleeps performed.
`oracle i` is the platform's response to attempt `i`; `hdOracle` is the
value `wait_for_hd_processing` would return (external polling). -/
def uploadLoop (oracle : Nat → AttemptOutcome) (hdOracle : Bool)
    (waitForHd : Bool) :
    Nat → Nat → UploadResult → List Nat → UploadRun
  | 0, i, res, sleeps => ⟨none, res, i, sleeps⟩
  | remaining + 1, i, res, sleeps =>
    let sleeps := if i > 0 then sleeps ++ [RETRY_DELAYS.getD (i - 1) 0] else sleeps
    match oracle i with
    | .ok vid =>
      match vid with
      | some v =>
        if v = "" then
          uploadLoop oracle hdOracle waitForHd remaining (i + 1)
            { res with error := some missingIdMsg, retries := i + 1 } sleeps
        else
          let res := { res with success := true }
          let res := if waitForHd then { res with hd_ready := hdOracle } else res
          ⟨some v, res, i + 1, sleeps⟩
      | none =>
        uploadLoop oracle hdOracle waitForHd remaining (i + 1)
          { res with error := some missingIdMsg, retries := i + 1 } sleeps
    | .httpErr status content =>
      let res := { res with error := some content, retries := i + 1 }
      if status = some 400 then
        ⟨none, res, i + 1, sleeps⟩
      else
        uploadLoop oracle hdOracle waitForHd remaining (i + 1) res sleeps
    | .exc msg =>
      uploadLoop oracle hdOracle waitForHd remaining (i + 1)
        { res with error := some msg, retries := i + 1 } sleeps

/-- The initial `result` dict of `upload_video`. -/
def initResult : UploadResult :=
  { success := false, hd_ready := false, error := none, retries := 0,
    test_only := false }

/-- Models a real (non-test-mode) call of `upload_video`
(`instauto/youtube_uploader.py`).  On HTTP 400 the source has two branches
(quota phrasing matched vs generic 400); both return `(None, result)` with
no retry, which the model folds into one return, and falling out of the
loop returns `(None, result)`. -/
def uploadVideoReal (oracle : Nat → AttemptOutcome) (hdOracle : Bool)
    (waitForHd : Bool) : UploadRun :=
  uploadLoop oracle hdOracle waitForHd MAX_RETRIES 0 initResult []

/-- A transient (retried) attempt outcome: any non-`HttpError` exception, or
an `HttpError` whose status is not 400 (network / server errors). -/
def isTransientB : AttemptOutcome → Bool
  | .exc _ => true
  | .httpErr status _ => !(status == some 400)
  | .ok _ => false

/-! ## Orchestrator (`process_profile` in `main.py`) -/

/-- `MAX_UPLOADS_PER_DAY` from `main.py`. -/
def MAX_UPLOADS_PER_DAY : Nat := 5

/-- `UPLOAD_SPACING_SECONDS` from `main.py`. -/
def UPLOAD_SPACING_SECONDS : Nat := 60

/-- What a call of `upload_video` from `process_profile` produces, as seen
by the orchestrator:
- `ret vid details`: a normal return `(video_id, upload_details)`;
- `raisedHttpLimit`: an `HttpError` with status 400 whose error details
  contain reason `uploadLimitExceeded` (caught and turned into the run-level
  halt);
- `raisedHttpOther`: any other `HttpError` (caught, logged, next media);
- `raisedOther`: any other exception (caught, logged, next media). -/
inductive CallOutcome where
  | ret (videoId : Option String) (details : UploadResult)
  | raisedHttpLimit
  | raisedHttpOther (msg : String)
  | raisedOther (msg : String)
deriving DecidableEq, Repr

/-- The environment of one post inside the profile directory: the parsed
content of its own metadata file if it exists and parses (`none` models
both a missing file and unreadable JSON), and the other metadata documents
found by the `profile_dir.glob("**/*meta.json")` duplicate scan. -/
structure PostEnv where
  post : PostInfo
  existing : Option PostMeta
  others : List PostMeta
deriving Repr

/-- The run-wide configuration and external world of one `process_profile`
call: the CLI flags, the remote summarizer (`none` models every failure
path of `_chatgpt_summary`), the upload API (indexed by call number) and
the clock. -/
structure RunCfg where
  upload_videos : Bool
  use_chatgpt : Bool
  chatOracle : String → Option (String × String)
  callOracle : Nat → CallOutcome
  now : String

/-- The mutable state threaded through the loop of `process_profile`:
the per-run upload counter, the `service_params["_upload_limit_reached"]`
flag, the number of `upload_video` calls made so far (indexing the call
oracle), the metadata files written (in order, path and document) and the
upload attempts made (post base name, media file name). -/
structure RunState where
  uploads_this_run : Nat
  limitReached : Bool
  callIdx : Nat
  writes : List (String × PostMeta)
  attempts : List (String × String)
deriving DecidableEq, Repr

/-- Models `generate_title_description` from `instauto/summarizer.py`: with
`use_chatgpt` a remote summary is used when the call yields one, otherwise
the heuristic runs. -/
def generateTitleDescription (cfg : RunCfg) (caption : String) :
    String × String :=
  if cfg.use_chatgpt then
    match cfg.chatOracle caption with
    | some td => td
    | none => heuristicTitleDescription caption
  else heuristicTitleDescription caption

/-- The metadata file path for a post (flat layout of `main.py`,
`profile_dir / f"{post.base_name}_meta.json"`; the per-post-subdir layout
differs only in the path string). -/
def metaPath (post : PostInfo) : String := post.base_name ++ "_meta.json"

/-- The fresh `meta` dict built by `process_profile` for a post, before any
merge with previously persisted state. -/
def initMeta (cfg : RunCfg) (post : PostInfo) : PostMeta :=
  let td := generateTitleDescription cfg post.caption
  { caption := post.caption
    title := td.1
    description := td.2
    tags := extractHashtags post.caption
    uploaded := false
    video_ids := []
    uploads := []
    content_hash := md5Hex (td.1 ++ td.2)
    first_seen := cfg.now
    upload_details := [] }

/-- The `meta.update({...})` merge in `process_profile`: previously recorded
`video_ids` and `uploads` are carried into the fresh metadata. -/
def mergeExisting (m : PostMeta) : Option PostMeta → PostMeta
  | none => m
  | some ex => { m with video_ids := ex.video_ids, uploads := ex.uploads }

/-- The video-file extension allow-list of `process_profile`. -/
def videoExts : List String := [".mp4", ".mov", ".avi", ".mkv"]

/-- Python `str(details.get("error", ""))`: the `"error"` key always exists
in the result dict, so a `None` value prints as `"None"`. -/
def errStr : Option String → String
  | none => "None"
  | some s => s

/-- The `for media in post.media_files` loop of `process_profile`
(`main.py`): skip non-video extensions, skip media already in the
carried-forward `uploads` list, otherwise call `upload_video` and fold its
outcome into the metadata and run state.  A quota-exceeded failure (or an
`HttpError` with the quota reason) sets the run-level flag and exits the
media loop.  After each successful upload the metadata is immediately
persisted and the upload counter incremented (the inter-upload sleep has no
modelled state). -/
def mediaLoop (cfg : RunCfg) (post : PostInfo) :
    List MediaFile → PostMeta → RunState → PostMeta × RunState
  | [], m, s => (m, s)
  | media :: rest, m, s =>
    if !(videoExts.contains (pyLower media.suffix)) then
      mediaLoop cfg post rest m s
    else if m.uploads.contains media.name then
      mediaLoop cfg post rest m s
    else
      let out := cfg.callOracle s.callIdx
      let s := { s with callIdx := s.callIdx + 1,
                        attempts := s.attempts ++ [(post.base_name, media.name)] }
      match out with
      | .ret vid details =>
        if details.success = false then
          if containsSub (errStr details.error) quotaReasonA then
            (m, { s with limitReached := true })
          else mediaLoop cfg post rest m s
        else if vid = none || vid = some "TEST_MODE" then
          mediaLoop cfg post rest m s
        else
          let v := vid.getD ""
          let m := { m with
            video_ids := m.video_ids ++ [v]
            uploads := m.uploads ++ [media.name]
            upload_details := m.upload_details ++
              [(media.name, ⟨v, cfg.now, details.hd_ready, details.retries⟩)] }
          let s := { s with
            writes := s.writes ++ [(metaPath post, m)]
            uploads_this_run := s.uploads_this_run + 1 }
          mediaLoop cfg post rest m s
      | .raisedHttpLimit => (m, { s with limitReached := true })
      | .raisedHttpOther _ => mediaLoop cfg post rest m s
      | .raisedOther _ => mediaLoop cfg post rest m s

/-- Whether `process_profile` skips a post entirely: its own persisted
metadata is marked `uploaded`, or another metadata document in the profile
has the same title or the same description (duplicate-content guard). -/
def skipPost (cfg : RunCfg) (pe : PostEnv) : Bool :=
  let td := generateTitleDescription cfg pe.post.caption
  (pe.existing.map PostMeta.uploaded).getD false ||
    pe.others.any (fun o => o.title == td.1 || o.description == td.2)

/-- The body of the `for post in posts` loop of `process_profile` for one
post (after the daily-cap check): resolve skip, build and merge metadata,
run the media loop when uploads are enabled for this post, set the final
`uploaded` flag in the upload branch, and persist the final metadata. -/
def processPost (cfg : RunCfg) (pe : PostEnv) (s : RunState) : RunState :=
  let uploadForThisPost := cfg.upload_videos && !s.limitReached
  if skipPost cfg pe then s
  else
    let m := mergeExisting (initMeta cfg pe.post) pe.existing
    if uploadForThisPost then
      let r := mediaLoop cfg pe.post pe.post.media_files m s
      let mFinal := { r.1 with uploaded := !r.1.video_ids.isEmpty }
      { r.2 with writes := r.2.writes ++ [(metaPath pe.post, mFinal)] }
    else
      { s with writes := s.writes ++ [(metaPath pe.post, m)] }

/-- The `for post in posts` loop of `process_profile`: at the top of each
iteration the per-run upload counter is checked against
`MAX_UPLOADS_PER_DAY` and the loop `break`s when the cap is reached. -/
def processPosts (cfg : RunCfg) : List PostEnv → RunState → RunState
  | [], s => s
  | pe :: rest, s =>
    if MAX_UPLOADS_PER_DAY ≤ s.uploads_this_run then s
    else processPosts cfg rest (processPost cfg pe s)

/-- The initial run state of one `process_profile` call. -/
def initRunState : RunState :=
  { uploads_this_run := 0, limitReached := false, callIdx := 0,
    writes := [], attempts := [] }

/-- Models the post-download part of `process_profile` (`main.py`): the
per-post loop over the fetched sequence, from a fresh run state. -/
def processProfile (cfg : RunCfg) (posts : List PostEnv) : RunState :=
  processPosts cfg posts initRunState

/-! ## Post ordering (`_collect_posts` in `instauto/downloader.py`) -/

/-- The Python sort key `(p.timestamp is None, p.timestamp)` compared as a
tuple: records without a timestamp compare greater than all timestamped
ones, two absent timestamps compare equal, two present ones by value. -/
def tsKeyLE (a b : Option Nat) : Prop :=
  match a, b with
  | none, none => True
  | none, some _ => False
  | some _, none => True
  | some x, some y => x ≤ y

instance : DecidableRel tsKeyLE := fun a b => by
  cases a <;> cases b <;> simp only [tsKeyLE] <;> infer_instance

/-- The ordering used by `posts.sort(key=lambda p: (p.timestamp is None,
p.timestamp))`. -/
def postLE (p q : PostInfo) : Prop := tsKeyLE p.timestamp q.timestamp

instance : DecidableRel postLE := fun p q => by
  unfold postLE; infer_instance

instance : IsTotal PostInfo postLE := by
  constructor
  intro p q
  unfold postLE
  rcases p.timestamp with _ | x <;> rcases q.timestamp with _ | y <;>
    simp [tsKeyLE] <;> omega

instance : IsTrans PostInfo postLE := by
  constructor
  intro p q r
  unfold postLE
  rcases p.timestamp with _ | x <;> rcases q.timestamp with _ | y <;>
    rcases r.timestamp with _ | z <;> simp [tsKeyLE] <;> omega

/-- Models the sorting step `posts.sort(key=lambda p: (p.timestamp is None,
p.timestamp))` of `_collect_posts`.  Python's sort is stable; a stable sort
for a total preorder has a unique result, so the stable `insertionSort`
models it exactly. -/
def sortPosts (posts : List PostInfo) : List PostInfo :=
  List.insertionSort postLE posts

/-! ## Watermark position (`_get_position_offsets` in
`instauto/watermark.py`) -/

/-- Models `_get_position_offsets`: pixel offsets of the watermark for a
position string, lower-cased before matching; any string other than the
four recognized positions falls through to the bottom-right default. -/
def getPositionOffsets (videoSize wmSize : Int × Int) (position : String)
    (margin : Int := 10) : Int × Int :=
  let vidW := videoSize.1
  let vidH := videoSize.2
  let wmW := wmSize.1
  let wmH := wmSize.2
  let pos := pyLower position
  if pos = "top-left" then (margin, margin)
  else if pos = "top-right" then (vidW - wmW - margin, margin)
  else if pos = "bottom-left" then (margin, vidH - wmH - margin)
  else if pos = "bottom-right" then (vidW - wmW - margin, vidH - wmH - margin)
  else (vidW - wmW - margin, vidH - wmH - margin)

/-! ## Concrete instances used by witnesses and counterexamples -/

/-- A plainly successful `upload_video` result. -/
def okDetails : UploadResult :=
  { success := true, hd_ready := true, error := none, retries := 0,
    test_only := false }

/-- An `upload_video` failure result carrying the second quota phrasing
(the one recognized by the engine but not by the orchestrator). -/
def quotaBFail : UploadResult :=
  { success := false, hd_ready := false, error := some quotaReasonB,
    retries := 1, test_only := false }

/-- A post environment with one video file, no persisted metadata and no
other metadata files. -/
def simplePE (b c m : String) : PostEnv :=
  ⟨⟨b, [⟨m, ".mp4"⟩], c, none⟩, none, []⟩

/-- Six simple posts; the run cap is five. -/
def postsC1 : List PostEnv :=
  [simplePE "p1" "c1" "m1.mp4", simplePE "p2" "c2" "m2.mp4",
   simplePE "p3" "c3" "m3.mp4", simplePE "p4" "c4" "m4.mp4",
   simplePE "p5" "c5" "m5.mp4", simplePE "p6" "c6" "m6.mp4"]

/-- A run configuration whose upload API always succeeds. -/
def cfgAllOk : RunCfg :=
  { upload_videos := true, use_chatgpt := false, chatOracle := fun _ => none,
    callOracle := fun i => .ret (some ("vid" ++ toString i)) okDetails,
    now := "2026-01-01T00:00:00" }

/-- Two simple posts; the run cap is five. -/
def postsC3 : List PostEnv :=
  [simplePE "p1" "c1" "a.mp4", simplePE "p2" "c2" "b.mp4"]

/-- A run configuration whose first upload call fails with the second quota
phrasing and whose later calls succeed. -/
def cfgC3 : RunCfg :=
  { upload_videos := true, use_chatgpt := false, chatOracle := fun _ => none,
    callOracle := fun i => if i = 0 then .ret none quotaBFail
      else .ret (some ("vid" ++ toString i)) okDetails,
    now := "2026-01-01T00:00:00" }

/-- The error text recorded for a retried (transient) attempt outcome. -/
def transientMsg : AttemptOutcome → String
  | .ok _ => missingIdMsg
  | .httpErr _ c => c
  | .exc m => m

/-- An attempt outcome after which `upload_video` starts another attempt:
any non-`HttpError` exception, an `HttpError` whose status is not 400, or a
final response with a missing or empty id (whose `RuntimeError` is caught
by the same generic handler). -/
def retriedB : AttemptOutcome → Bool
  | .ok none => true
  | .ok (some v) => v == ""
  | .httpErr s _ => !(s == some 400)
  | .exc _ => true

/-- An `upload_video` outcome that the orchestrator records as a success:
a normal return with a present id that is not `"TEST_MODE"` and a truthy
`success` flag. -/
def plainSuccessB : CallOutcome → Bool
  | .ret (some v) d => d.success && !(v == "TEST_MODE")
  | _ => false

/-- The media files of a post that the orchestrator will attempt to
upload, given the carried-forward `uploads` list: video extensions only,
and not already recorded as uploaded. -/
def newVideoFiles (files : List MediaFile) (uploaded : List String) :
    List MediaFile :=
  files.filter (fun f =>
    videoExts.contains (pyLower f.suffix) && !(uploaded.contains f.name))

/-- A failure result whose error text contains `"uploadLimitExceeded"`. -/
def quotaAFail : UploadResult :=
  { success := false, hd_ready := false,
    error := some "uploadLimitExceeded: daily quota reached", retries := 1,
    test_only := false }

/-- A run configuration whose upload API always reports the
`uploadLimitExceeded` failure. -/
def cfgQuotaA : RunCfg :=
  { upload_videos := true, use_chatgpt := false, chatOracle := fun _ => none,
    callOracle := fun _ => .ret none quotaAFail,
    now := "2026-01-01T00:00:00" }

/-- Prior-run metadata with one media file already uploaded. -/
def priorMeta : PostMeta :=
  { caption := "c1", title := "c1", description := "c1", tags := [],
    uploaded := false, video_ids := ["vidA"], uploads := ["a.mp4"],
    content_hash := "h", first_seen := "t0", upload_details := [] }

/-- A post with two media files `a.mp4`, `b.mp4` whose persisted metadata
records `uploads = ["a.mp4"]`. -/
def peC6 : PostEnv :=
  ⟨⟨"p1", [⟨"a.mp4", ".mp4"⟩, ⟨"b.mp4", ".mp4"⟩], "c1", none⟩,
    some priorMeta, []⟩

/-! ## Theorems -/

/-- The `uploaded` and `content_hash` fields are untouched by the
carried-forward-state merge. -/
theorem mergeExisting_fields (m : PostMeta) (e : Option PostMeta) :
    (mergeExisting m e).content_hash = m.content_hash ∧
    (mergeExisting m e).uploaded = m.uploaded ∧
    (mergeExisting m e).title = m.title := by
  cases e <;> simp [mergeExisting]

/-- C10: `_get_position_offsets` is total over arbitrary position strings,
matches case-insensitively (only the lower-cased string matters), and every
string other than the four recognized positions yields the bottom-right
offsets `(video_width - watermark_width - margin, video_height -
watermark_height - margin)`. -/
theorem claim_C10_position_offsets :
    ∀ (vw vh ww wh margin : Int) (pos1 pos2 : String),
    (pyLower pos1 = pyLower pos2 →
      getPositionOffsets (vw, vh) (ww, wh) pos1 margin =
        getPositionOffsets (vw, vh) (ww, wh) pos2 margin) ∧
    (pyLower pos1 ≠ "top-left" → pyLower pos1 ≠ "top-right" →
      pyLower pos1 ≠ "bottom-left" → pyLower pos1 ≠ "bottom-right" →
      getPositionOffsets (vw, vh) (ww, wh) pos1 margin =
        (vw - ww - margin, vh - wh - margin)) := by
  intro vw vh ww wh margin pos1 pos2
  constructor
  · intro h
    simp only [getPositionOffsets]
    rw [h]
  · intro h1 h2 h3 h4
    simp [getPositionOffsets, h1, h2, h3, h4]

/-- Witness for C10 at a concrete frame, watermark, margin and the
unrecognized position string `"CENTER"` (whose lower-casing `"center"`
matches none of the four keywords). -/
theorem claim_C10_position_offsets_witness :
    getPositionOffsets (1000, 500) (200, 100) "CENTER" 10 =
      getPositionOffsets (1000, 500) (200, 100) "Center" 10 ∧
    getPositionOffsets (1000, 500) (200, 100) "CENTER" 10 = (790, 390) :=
  ⟨(claim_C10_position_offsets 1000 500 200 100 10 "CENTER" "Center").1
      (by decide),
   (claim_C10_position_offsets 1000 500 200 100 10 "CENTER" "Center").2
      (by decide) (by decide) (by decide) (by decide)⟩

/-- A record with an absent timestamp never sorts below one with a present
timestamp. -/
theorem postLE_none_none {p q : PostInfo} (h : postLE p q)
    (hp : p.timestamp = none) : q.timestamp = none := by
  unfold postLE at h
  rw [hp] at h
  cases hq : q.timestamp with
  | none => rfl
  | some y => rw [hq] at h; exact absurd h (by simp [tsKeyLE])

/-- Inserting a record into the sorted list leaves the subsequence of
records without a timestamp unchanged, except that a new timestampless
record lands exactly at its stable position in front of the later ones. -/
theorem filterNone_orderedInsert (x : PostInfo) (l : List PostInfo) :
    (List.orderedInsert postLE x l).filter (fun p => p.timestamp.isNone) =
      if x.timestamp.isNone then
        x :: l.filter (fun p => p.timestamp.isNone)
      else l.filter (fun p => p.timestamp.isNone) := by
  induction l with
  | nil =>
    cases hx : x.timestamp <;>
      simp [List.orderedInsert, List.filter, hx, Option.isNone]
  | cons y ys ih =>
    by_cases h : postLE x y
    · rw [List.orderedInsert_of_le _ _ h]
      cases hx : x.timestamp <;>
        simp [List.filter, hx, Option.isNone]
    · have hstep : List.orderedInsert postLE x (y :: ys) =
          y :: List.orderedInsert postLE x ys := by
        simp [List.orderedInsert, h]
      rw [hstep]
      cases hx : x.timestamp with
      | none =>
        have hy : y.timestamp ≠ none := by
          intro hyn
          exact h (by unfold postLE; rw [hx, hyn]; trivial)
        cases hyv : y.timestamp with
        | none => exact absurd hyv hy
        | some t =>
          simp only [List.filter, hyv, Option.isNone, hx] at ih ⊢
          simpa using ih
      | some t =>
        simp only [List.filter, hx, Option.isNone] at ih ⊢
        cases hyv : y.timestamp <;>
          simp [List.filter, hyv, Option.isNone, ih]

/-- C7: the list produced by the `posts.sort(key=lambda p: (p.timestamp is
None, p.timestamp))` step of `_collect_posts` is a permutation of its
input in which timestamped records are in ascending timestamp order, every
record without a parseable timestamp comes after every timestamped record,
and the records without a timestamp keep their original relative order. -/
theorem claim_C7_collect_posts_order : ∀ posts : List PostInfo,
    (sortPosts posts).Perm posts ∧
    List.Pairwise
      (fun p q => ∀ x y, p.timestamp = some x → q.timestamp = some y → x ≤ y)
      (sortPosts posts) ∧
    List.Pairwise (fun p q => p.timestamp = none → q.timestamp = none)
      (sortPosts posts) ∧
    (sortPosts posts).filter (fun p => p.timestamp.isNone) =
      posts.filter (fun p => p.timestamp.isNone) := by
  intro posts
  have hsorted := List.sorted_insertionSort postLE posts
  refine ⟨List.perm_insertionSort postLE posts, ?_, ?_, ?_⟩
  · refine hsorted.imp ?_
    intro p q h x y hp hq
    unfold postLE at h
    rw [hp, hq] at h
    exact h
  · refine hsorted.imp ?_
    intro p q h hp
    exact postLE_none_none h hp
  · show (List.insertionSort postLE posts).filter _ = _
    clear hsorted
    induction posts with
    | nil => rfl
    | cons x xs ih =>
      rw [List.insertionSort, filterNone_orderedInsert, ih]
      cases hx : x.timestamp <;> simp [List.filter, hx, Option.isNone]

/-- Stripping whitespace never lengthens a character list. -/
theorem pyStrip_length_le (l : List Char) : (pyStrip l).length ≤ l.length := by
  unfold pyStrip
  rw [List.length_reverse]
  calc ((l.dropWhile isPySpace).reverse.dropWhile isPySpace).length
      ≤ (l.dropWhile isPySpace).reverse.length :=
        (List.dropWhile_suffix _).sublist.length_le
    _ = (l.dropWhile isPySpace).length := List.length_reverse _
    _ ≤ l.length := (List.dropWhile_suffix _).sublist.length_le

/-- C5 counterexample: on the caption `"Hi! Go."` the claimed contract
(title cut at the first terminator occurring in the text) gives `"Hi!"`,
but `_heuristic_title_description` searches `"."` before `"!"` and returns
`"Hi! Go."`; and on `"Wow # cool!"` the returned title still contains a
`'#'`, because the regex `#[\w\d_]+` only removes a `#` followed by word
characters. -/
theorem claim_C5_counterexample :
    (heuristicTitleDescription "Hi! Go.").1 = "Hi! Go." ∧
    claimTitle "Hi! Go." = "Hi!" ∧
    (heuristicTitleDescription "Hi! Go.").1 ≠ claimTitle "Hi! Go." ∧
    '#' ∈ (heuristicTitleDescription "Wow # cool!").1.toList := by
  decide

/-- C5 amended: for every caption the heuristic summarizer returns a
description equal to the whitespace-collapsed cleaned caption with
hashtags retained, and a title obtained from the hashtag-stripped cleaned
caption cut after the first occurrence of `"."` if any, else of `"!"`,
else of `"?"` (priority order, not first terminator by position; a `#` not
followed by a word character can survive into the title), truncated to at
most 80 characters. -/
theorem claim_C5_amended : ∀ caption : String,
    (heuristicTitleDescription caption).2 = cleanCaption caption ∧
    (heuristicTitleDescription caption).1 =
      String.mk
        (pyStrip ((extractFirstSentence (cleanCaption caption).toList).take 80)) ∧
    (heuristicTitleDescription caption).1.length ≤ 80 := by
  intro c
  by_cases h : cleanCaption c = ""
  · have h2 : heuristicTitleDescription c = ("", "") := by
      simp [heuristicTitleDescription, h]
    rw [h2]
    refine ⟨h.symm, ?_, by decide⟩
    rw [h]
    decide
  · have h2 : heuristicTitleDescription c =
        (String.mk
          (pyStrip ((extractFirstSentence (cleanCaption c).toList).take 80)),
         cleanCaption c) := by
      simp [heuristicTitleDescription, h]
    rw [h2]
    refine ⟨rfl, rfl, ?_⟩
    have hmk : ∀ l : List Char, (String.mk l).length = l.length := fun _ => rfl
    rw [hmk]
    exact le_trans (pyStrip_length_le _) (List.length_take_le _ _)

/-- C9: with the remote summarizer disabled, the `content_hash` recorded in
the metadata is a function of the caption alone: two runs at different
times, with different persisted state, different upload oracles and
different (unused) remote summarizers, compute the same hash for the same
caption, namely the MD5 hex digest of the generated title concatenated
with the description. -/
theorem claim_C9_content_hash_deterministic :
    ∀ (u1 u2 : Bool) (ch1 ch2 : String → Option (String × String))
      (o1 o2 : Nat → CallOutcome) (n1 n2 : String)
      (p1 p2 : PostInfo) (e1 e2 : Option PostMeta),
    p1.caption = p2.caption →
    (mergeExisting (initMeta ⟨u1, false, ch1, o1, n1⟩ p1) e1).content_hash =
      (mergeExisting (initMeta ⟨u2, false, ch2, o2, n2⟩ p2) e2).content_hash ∧
    (mergeExisting (initMeta ⟨u1, false, ch1, o1, n1⟩ p1) e1).content_hash =
      md5Hex ((heuristicTitleDescription p1.caption).1 ++
        (heuristicTitleDescription p1.caption).2) := by
  intro u1 u2 ch1 ch2 o1 o2 n1 n2 p1 p2 e1 e2 hcap
  have hhash : ∀ (u : Bool) (ch : String → Option (String × String))
      (o : Nat → CallOutcome) (n : String) (p : PostInfo)
      (e : Option PostMeta),
      (mergeExisting (initMeta ⟨u, false, ch, o, n⟩ p) e).content_hash =
        md5Hex ((heuristicTitleDescription p.caption).1 ++
          (heuristicTitleDescription p.caption).2) := by
    intro u ch o n p e
    rw [(mergeExisting_fields _ e).1]
    simp [initMeta, generateTitleDescription]
  refine ⟨?_, hhash u1 ch1 o1 n1 p1 e1⟩
  rw [hhash, hhash, hcap]

/-- Witness for C9 at the concrete caption `"Hello world! #x"`, two
different clocks, remote-summarizer stubs, upload oracles and persisted
states. -/
theorem claim_C9_witness :
    (mergeExisting
        (initMeta ⟨true, false, fun _ => none, fun _ => .raisedHttpLimit, "t1"⟩
          ⟨"p1", [], "Hello world! #x", none⟩) none).content_hash =
      (mergeExisting
        (initMeta ⟨false, false, fun _ => some ("a", "b"),
            fun _ => .raisedOther "e", "t2"⟩
          ⟨"p2", [⟨"a.mp4", ".mp4"⟩], "Hello world! #x", some 3⟩)
        (some
          { caption := "c", title := "t", description := "d", tags := [],
            uploaded := false, video_ids := ["v"], uploads := ["a.mp4"],
            content_hash := "h", first_seen := "t0",
            upload_details := [] })).content_hash :=
  (claim_C9_content_hash_deterministic true false (fun _ => none)
    (fun _ => some ("a", "b")) (fun _ => .raisedHttpLimit)
    (fun _ => .raisedOther "e") "t1" "t2"
    ⟨"p1", [], "Hello world! #x", none⟩
    ⟨"p2", [⟨"a.mp4", ".mp4"⟩], "Hello world! #x", some 3⟩
    none
    (some
      { caption := "c", title := "t", description := "d", tags := [],
        uploaded := false, video_ids := ["v"], uploads := ["a.mp4"],
        content_hash := "h", first_seen := "t0",
        upload_details := [] }) rfl).1

/-- One sleeps-accumulator step: after attempt `i` (with `i + 1 ≤ 3` more
attempts total), the performed backoff sleeps are the first `i` entries of
the schedule. -/
theorem sleeps_step (i : Nat) (h2 : i ≤ 2) :
    (if i > 0 then
        RETRY_DELAYS.take (i - 1) ++ [RETRY_DELAYS.getD (i - 1) 0]
      else RETRY_DELAYS.take (i - 1)) = RETRY_DELAYS.take i := by
  have : i = 0 ∨ i = 1 ∨ i = 2 := by omega
  rcases this with h | h | h <;> subst h <;> decide

/-- Bounded-attempt invariant of the retry loop of `upload_video`: starting
at attempt `i` with the sleeps performed so far, the loop makes at most 3
attempts in total and its performed sleeps are always the prefix of the
backoff schedule `RETRY_DELAYS` of length one less than the number of
attempts started. -/
theorem uploadLoop_bounds (oracle : Nat → AttemptOutcome) (hd w : Bool) :
    ∀ fuel i res, i + fuel ≤ 3 →
    (uploadLoop oracle hd w fuel i res (RETRY_DELAYS.take (i - 1))).attemptsMade
        ≤ 3 ∧
    (uploadLoop oracle hd w fuel i res (RETRY_DELAYS.take (i - 1))).sleeps =
      RETRY_DELAYS.take
        ((uploadLoop oracle hd w fuel i res
          (RETRY_DELAYS.take (i - 1))).attemptsMade - 1) := by
  intro fuel
  induction fuel with
  | zero =>
    intro i res h
    constructor
    · show i ≤ 3
      omega
    · rfl
  | succ n ih =>
    intro i res h
    have hs := sleeps_step i (by omega)
    rcases ho : oracle i with vid | ⟨s, c⟩ | m
    · rcases vid with _ | v
      · have step : uploadLoop oracle hd w (n + 1) i res
            (RETRY_DELAYS.take (i - 1)) =
            uploadLoop oracle hd w n (i + 1)
              { res with error := some missingIdMsg, retries := i + 1 }
              (RETRY_DELAYS.take ((i + 1) - 1)) := by
          simp only [uploadLoop, ho, hs, Nat.add_sub_cancel]
        rw [step]
        exact ih (i + 1) _ (by omega)
      · by_cases hv : v = ""
        · have step : uploadLoop oracle hd w (n + 1) i res
              (RETRY_DELAYS.take (i - 1)) =
              uploadLoop oracle hd w n (i + 1)
                { res with error := some missingIdMsg, retries := i + 1 }
                (RETRY_DELAYS.take ((i + 1) - 1)) := by
            simp only [uploadLoop, ho, hs, Nat.add_sub_cancel]
            rw [if_pos hv]
          rw [step]
          exact ih (i + 1) _ (by omega)
        · have step : uploadLoop oracle hd w (n + 1) i res
              (RETRY_DELAYS.take (i - 1)) =
              ⟨some v,
                if w then { res with success := true, hd_ready := hd }
                else { res with success := true },
                i + 1, RETRY_DELAYS.take i⟩ := by
            simp only [uploadLoop, ho, hs]
            rw [if_neg hv]
          rw [step]
          refine ⟨by show i + 1 ≤ 3; omega, ?_⟩
          show RETRY_DELAYS.take i = RETRY_DELAYS.take ((i + 1) - 1)
          rw [Nat.add_sub_cancel]
    · by_cases h4 : s = some 400
      · have step : uploadLoop oracle hd w (n + 1) i res
            (RETRY_DELAYS.take (i - 1)) =
            ⟨none, { res with error := some c, retries := i + 1 }, i + 1,
              RETRY_DELAYS.take i⟩ := by
          simp only [uploadLoop, ho, hs]
          rw [if_pos h4]
        rw [step]
        refine ⟨by show i + 1 ≤ 3; omega, ?_⟩
        show RETRY_DELAYS.take i = RETRY_DELAYS.take ((i + 1) - 1)
        rw [Nat.add_sub_cancel]
      · have step : uploadLoop oracle hd w (n + 1) i res
            (RETRY_DELAYS.take (i - 1)) =
            uploadLoop oracle hd w n (i + 1)
              { res with error := some c, retries := i + 1 }
              (RETRY_DELAYS.take ((i + 1) - 1)) := by
          simp only [uploadLoop, ho, hs, Nat.add_sub_cancel]
          rw [if_neg h4]
        rw [step]
        exact ih (i + 1) _ (by omega)
    · have step : uploadLoop oracle hd w (n + 1) i res
          (RETRY_DELAYS.take (i - 1)) =
          uploadLoop oracle hd w n (i + 1)
            { res with error := some m, retries := i + 1 }
            (RETRY_DELAYS.take ((i + 1) - 1)) := by
        simp only [uploadLoop, ho, hs, Nat.add_sub_cancel]
      rw [step]
      exact ih (i + 1) _ (by omega)

/-- Transient outcomes are retried. -/
theorem isTransientB_retried {o : AttemptOutcome}
    (h : isTransientB o = true) : retriedB o = true := by
  cases o with
  | ok vid => simp [isTransientB] at h
  | httpErr s c => simpa [isTransientB, retriedB] using h
  | exc m => rfl

/-- One retried attempt of the `upload_video` loop: the attempt index
advances, the error text and retry count are recorded, and (from the
second attempt on) a backoff sleep from the schedule is performed. -/
theorem uploadLoop_retried_step (oracle : Nat → AttemptOutcome)
    (hd w : Bool) (n i : Nat) (res : UploadResult) (sleeps : List Nat)
    (h : retriedB (oracle i) = true) :
    uploadLoop oracle hd w (n + 1) i res sleeps =
      uploadLoop oracle hd w n (i + 1)
        { res with error := some (transientMsg (oracle i)), retries := i + 1 }
        (if i > 0 then sleeps ++ [RETRY_DELAYS.getD (i - 1) 0] else sleeps) := by
  rcases ho : oracle i with vid | ⟨s, c⟩ | m
  · rcases vid with _ | v
    · simp only [uploadLoop, ho, transientMsg]
    · rw [ho] at h
      have hv : v = "" := by simpa [retriedB] using h
      subst hv
      simp only [uploadLoop, ho, transientMsg]
      simp
  · rw [ho] at h
    have h4 : ¬s = some 400 := by simpa [retriedB] using h
    simp only [uploadLoop, ho, transientMsg]
    rw [if_neg h4]
  · simp only [uploadLoop, ho, transientMsg]

/-- A successful attempt of the `upload_video` loop: the platform id is
returned, `success` is set, and `hd_ready` is filled from the HD poll when
waiting was requested. -/
theorem uploadLoop_success_step (oracle : Nat → AttemptOutcome)
    (hd w : Bool) (n i : Nat) (res : UploadResult) (sleeps : List Nat)
    (v : String) (ho : oracle i = .ok (some v)) (hv : v ≠ "") :
    uploadLoop oracle hd w (n + 1) i res sleeps =
      ⟨some v,
        if w then { res with success := true, hd_ready := hd }
        else { res with success := true },
        i + 1,
        if i > 0 then sleeps ++ [RETRY_DELAYS.getD (i - 1) 0] else sleeps⟩ := by
  simp only [uploadLoop, ho]
  rw [if_neg hv]

/-- An HTTP 400 attempt of the `upload_video` loop terminates it at once
with a failure result (this covers both the quota phrasings and the
generic bad-request branch of the source, which return identically). -/
theorem uploadLoop_badreq_step (oracle : Nat → AttemptOutcome)
    (hd w : Bool) (n i : Nat) (res : UploadResult) (sleeps : List Nat)
    (c : String) (ho : oracle i = .httpErr (some 400) c) :
    uploadLoop oracle hd w (n + 1) i res sleeps =
      ⟨none, { res with error := some c, retries := i + 1 }, i + 1,
        if i > 0 then sleeps ++ [RETRY_DELAYS.getD (i - 1) 0] else sleeps⟩ := by
  simp [uploadLoop, ho]

/-- First attempt retried: the run continues at attempt 1 with no sleep
performed yet. -/
theorem uploadReal_step1 (oracle : Nat → AttemptOutcome) (hd w : Bool)
    (h : retriedB (oracle 0) = true) :
    uploadVideoReal oracle hd w =
      uploadLoop oracle hd w 2 1
        { initResult with
          error := some (transientMsg (oracle 0))
          retries := 1 } [] := by
  have step := uploadLoop_retried_step oracle hd w 2 0 initResult [] h
  simpa [uploadVideoReal, MAX_RETRIES] using step

/-- Second attempt retried: the run continues at attempt 2 after the first
backoff sleep of 5 seconds. -/
theorem uploadLoop_step2 (oracle : Nat → AttemptOutcome) (hd w : Bool)
    (res : UploadResult) (h : retriedB (oracle 1) = true) :
    uploadLoop oracle hd w 2 1 res [] =
      uploadLoop oracle hd w 1 2
        { res with error := some (transientMsg (oracle 1)), retries := 2 }
        [5] := by
  have step := uploadLoop_retried_step oracle hd w 1 1 res [] h
  simpa [RETRY_DELAYS] using step

/-- Third attempt retried: the loop is exhausted and returns a failure
result after the second backoff sleep of 15 seconds. -/
theorem uploadLoop_step3_fail (oracle : Nat → AttemptOutcome) (hd w : Bool)
    (res : UploadResult) (h : retriedB (oracle 2) = true) :
    uploadLoop oracle hd w 1 2 res [5] =
      ⟨none, { res with error := some (transientMsg (oracle 2)), retries := 3 },
        3, [5, 15]⟩ := by
  have step := uploadLoop_retried_step oracle hd w 0 2 res [5] h
  simpa [RETRY_DELAYS, uploadLoop] using step

/-- Third attempt successful. -/
theorem uploadLoop_step3_ok (oracle : Nat → AttemptOutcome) (hd w : Bool)
    (res : UploadResult) (v : String) (ho : oracle 2 = .ok (some v))
    (hv : v ≠ "") :
    uploadLoop oracle hd w 1 2 res [5] =
      ⟨some v,
        if w then { res with success := true, hd_ready := hd }
        else { res with success := true },
        3, [5, 15]⟩ := by
  have step := uploadLoop_success_step oracle hd w 0 2 res [5] v ho hv
  simpa [RETRY_DELAYS] using step

/-- C4: a real `upload_video` call makes at most `MAX_RETRIES = 3` attempts
and its backoff sleeps between consecutive attempts follow the schedule
`RETRY_DELAYS = [5, 15, 30]` (one entry per extra attempt, so at most
`[5, 15]` are ever slept); three transient failures exhaust the budget and
return a failure result without raising; two transient failures followed
by a successful third attempt return a success result with the platform id
and a retry count of 2. -/
theorem claim_C4_retry_policy :
    ∀ (oracle : Nat → AttemptOutcome) (hd w : Bool) (v : String),
    ((uploadVideoReal oracle hd w).attemptsMade ≤ MAX_RETRIES ∧
     (uploadVideoReal oracle hd w).sleeps =
       RETRY_DELAYS.take ((uploadVideoReal oracle hd w).attemptsMade - 1)) ∧
    (isTransientB (oracle 0) = true → isTransientB (oracle 1) = true →
      isTransientB (oracle 2) = true →
      (uploadVideoReal oracle hd w).videoId = none ∧
      (uploadVideoReal oracle hd w).result.success = false ∧
      (uploadVideoReal oracle hd w).attemptsMade = MAX_RETRIES) ∧
    (isTransientB (oracle 0) = true → isTransientB (oracle 1) = true →
      oracle 2 = .ok (some v) → v ≠ "" →
      (uploadVideoReal oracle hd w).videoId = some v ∧
      (uploadVideoReal oracle hd w).result.success = true ∧
      (uploadVideoReal oracle hd w).result.retries = 2) := by
  intro oracle hd w v
  refine ⟨?_, ?_, ?_⟩
  · have h := uploadLoop_bounds oracle hd w 3 0 initResult (by omega)
    simp only [Nat.zero_sub, List.take_zero] at h
    exact h
  · intro h0 h1 h2
    rw [uploadReal_step1 oracle hd w (isTransientB_retried h0),
      uploadLoop_step2 oracle hd w _ (isTransientB_retried h1),
      uploadLoop_step3_fail oracle hd w _ (isTransientB_retried h2)]
    exact ⟨rfl, rfl, rfl⟩
  · intro h0 h1 h2 hv
    rw [uploadReal_step1 oracle hd w (isTransientB_retried h0),
      uploadLoop_step2 oracle hd w _ (isTransientB_retried h1),
      uploadLoop_step3_ok oracle hd w _ v h2 hv]
    refine ⟨rfl, ?_, ?_⟩
    · cases w <;> rfl
    · cases w <;> rfl

/-- Witness for C4: a network exception on attempt 1, a server error on
attempt 2 and a successful response on attempt 3 yield a success result
with the platform id, `retries = 2`, 3 attempts and sleeps `[5, 15]`. -/
theorem claim_C4_retry_policy_witness :
    (uploadVideoReal
        (fun i => if i = 0 then .exc "network down"
          else if i = 1 then .httpErr (some 500) "server error"
          else .ok (some "vidX")) true true).videoId = some "vidX" ∧
    (uploadVideoReal
        (fun i => if i = 0 then .exc "network down"
          else if i = 1 then .httpErr (some 500) "server error"
          else .ok (some "vidX")) true true).result.success = true ∧
    (uploadVideoReal
        (fun i => if i = 0 then .exc "network down"
          else if i = 1 then .httpErr (some 500) "server error"
          else .ok (some "vidX")) true true).result.retries = 2 ∧
    (uploadVideoReal
        (fun i => if i = 0 then .exc "network down"
          else if i = 1 then .httpErr (some 500) "server error"
          else .ok (some "vidX")) true true).attemptsMade ≤ MAX_RETRIES ∧
    (uploadVideoReal
        (fun i => if i = 0 then .exc "network down"
          else if i = 1 then .httpErr (some 500) "server error"
          else .ok (some "vidX")) true true).sleeps = [5, 15] ∧
    (uploadVideoReal (fun _ => .exc "boom") true true).videoId = none ∧
    (uploadVideoReal (fun _ => .exc "boom") true true).result.success
      = false := by
  have h := claim_C4_retry_policy
    (fun i => if i = 0 then .exc "network down"
      else if i = 1 then .httpErr (some 500) "server error"
      else .ok (some "vidX")) true true "vidX"
  have hfail := claim_C4_retry_policy (fun _ => .exc "boom") true true ""
  refine ⟨(h.2.2 (by decide) (by decide) (by decide) (by decide)).1,
    (h.2.2 (by decide) (by decide) (by decide) (by decide)).2.1,
    (h.2.2 (by decide) (by decide) (by decide) (by decide)).2.2,
    h.1.1, ?_, (hfail.2.1 (by decide) (by decide) (by decide)).1,
    (hfail.2.1 (by decide) (by decide) (by decide)).2.1⟩
  decide

/-- The retry loop never reports success without a non-empty platform id:
if it starts with `success = false` in the accumulated result, then a
returned `success = true` comes with `videoId = some v`, `v ≠ ""`. -/
theorem uploadLoop_success_has_id (oracle : Nat → AttemptOutcome)
    (hd w : Bool) :
    ∀ fuel i res sleeps, res.success = false →
    (uploadLoop oracle hd w fuel i res sleeps).result.success = true →
    ∃ v, (uploadLoop oracle hd w fuel i res sleeps).videoId = some v ∧
      v ≠ "" := by
  intro fuel
  induction fuel with
  | zero =>
    intro i res sleeps hres hcontra
    rw [show (uploadLoop oracle hd w 0 i res sleeps).result = res from rfl]
      at hcontra
    rw [hres] at hcontra
    exact absurd hcontra (by decide)
  | succ n ih =>
    intro i res sleeps hres
    rcases ho : oracle i with vid | ⟨s, c⟩ | m
    · rcases vid with _ | v
      · rw [uploadLoop_retried_step oracle hd w n i res sleeps
          (by rw [ho]; rfl)]
        exact ih _ _ _ (by simpa using hres)
      · by_cases hv : v = ""
        · rw [uploadLoop_retried_step oracle hd w n i res sleeps
            (by rw [ho, hv]; rfl)]
          exact ih _ _ _ (by simpa using hres)
        · rw [uploadLoop_success_step oracle hd w n i res sleeps v ho hv]
          intro _
          exact ⟨v, rfl, hv⟩
    · by_cases h4 : s = some 400
      · subst h4
        rw [uploadLoop_badreq_step oracle hd w n i res sleeps c ho]
        intro hcontra
        rw [show ({ res with error := some c, retries := i + 1 }
          : UploadResult).success = res.success from rfl, hres] at hcontra
        exact absurd hcontra (by decide)
      · rw [uploadLoop_retried_step oracle hd w n i res sleeps
          (by rw [ho]; simp [retriedB, h4])]
        exact ih _ _ _ (by simpa using hres)
    · rw [uploadLoop_retried_step oracle hd w n i res sleeps
        (by rw [ho]; rfl)]
      exact ih _ _ _ (by simpa using hres)

/-- C2 counterexample: when the platform's final response lacks an id on
every attempt, `upload_video` does NOT stop after one attempt — the
internal `RuntimeError` is caught by the loop's generic handler and the
upload is retried until the attempt budget is exhausted (3 attempts,
`retries = 3`), contradicting the claimed non-retried failure. -/
theorem claim_C2_counterexample :
    (uploadVideoReal (fun _ => .ok none) false true).attemptsMade = 3 ∧
    (uploadVideoReal (fun _ => .ok none) false true).attemptsMade ≠ 1 ∧
    (uploadVideoReal (fun _ => .ok none) false true).result.retries = 3 ∧
    (uploadVideoReal (fun _ => .ok none) false true).videoId = none ∧
    (uploadVideoReal (fun _ => .ok none) false true).result.success
      = false := by
  decide

/-- C2 amended: a missing (or empty) video id on the final response is
treated like a transient failure — the call is retried up to the full
attempt budget and then returns a failure result `(video_id = None,
success = false)`; and `upload_video` never returns `success = true`
together with an absent or empty video id. -/
theorem claim_C2_missing_id :
    ∀ (oracle : Nat → AttemptOutcome) (hd w : Bool),
    ((uploadVideoReal oracle hd w).result.success = true →
      ∃ v, (uploadVideoReal oracle hd w).videoId = some v ∧ v ≠ "") ∧
    ((∀ i, i < MAX_RETRIES →
        oracle i = .ok none ∨ oracle i = .ok (some "")) →
      (uploadVideoReal oracle hd w).attemptsMade = MAX_RETRIES ∧
      (uploadVideoReal oracle hd w).videoId = none ∧
      (uploadVideoReal oracle hd w).result.success = false) := by
  intro oracle hd w
  constructor
  · exact uploadLoop_success_has_id oracle hd w MAX_RETRIES 0 initResult []
      rfl
  · intro h
    have r0 : retriedB (oracle 0) = true := by
      rcases h 0 (by decide) with h0 | h0 <;> rw [h0] <;> rfl
    have r1 : retriedB (oracle 1) = true := by
      rcases h 1 (by decide) with h1 | h1 <;> rw [h1] <;> rfl
    have r2 : retriedB (oracle 2) = true := by
      rcases h 2 (by decide) with h2 | h2 <;> rw [h2] <;> rfl
    rw [uploadReal_step1 oracle hd w r0, uploadLoop_step2 oracle hd w _ r1,
      uploadLoop_step3_fail oracle hd w _ r2]
    exact ⟨rfl, rfl, rfl⟩

/-- Witness for C2 amended: the all-missing-id oracle satisfies the
hypotheses concretely, and a successful oracle exercises the
no-success-without-id conjunct. -/
theorem claim_C2_missing_id_witness :
    ((uploadVideoReal (fun _ => .ok (some "")) true true).attemptsMade
        = MAX_RETRIES ∧
    (uploadVideoReal (fun _ => .ok (some "")) true true).videoId = none ∧
    (uploadVideoReal (fun _ => .ok (some "")) true true).result.success
        = false) ∧
    (∃ v, (uploadVideoReal (fun _ => .ok (some "vid0")) true true).videoId
        = some v ∧ v ≠ "") :=
  ⟨(claim_C2_missing_id (fun _ => .ok (some "")) true true).2
    (fun i _ => Or.inr rfl),
   (claim_C2_missing_id (fun _ => .ok (some "vid0")) true true).1
    (by decide)⟩

/-- C1 counterexample: with uploads enabled and six posts whose uploads all
succeed, the run stops at the daily cap of 5 — and the sixth post gets NO
metadata generated or persisted (its metadata path is never written),
contradicting the claim that remaining posts still get metadata. -/
theorem claim_C1_counterexample :
    ((processProfile cfgAllOk postsC1).writes.map Prod.fst).contains
        "p6_meta.json" = false ∧
    ((processProfile cfgAllOk postsC1).writes.map Prod.fst).contains
        "p5_meta.json" = true ∧
    (processProfile cfgAllOk postsC1).attempts =
      [("p1", "m1.mp4"), ("p2", "m2.mp4"), ("p3", "m3.mp4"),
       ("p4", "m4.mp4"), ("p5", "m5.mp4")] ∧
    (processProfile cfgAllOk postsC1).uploads_this_run
      = MAX_UPLOADS_PER_DAY := by
  decide

/-- C1 amended: once the per-run upload counter has reached
`MAX_UPLOADS_PER_DAY`, the per-profile loop `break`s at the next post
boundary: no further upload attempts are made AND no metadata is generated
or persisted for any remaining post of the run (the run state is returned
unchanged). -/
theorem claim_C1_amended :
    ∀ (cfg : RunCfg) (posts : List PostEnv) (s : RunState),
    MAX_UPLOADS_PER_DAY ≤ s.uploads_this_run →
    processPosts cfg posts s = s := by
  intro cfg posts s h
  cases posts with
  | nil => rfl
  | cons pe rest => simp [processPosts, h]

/-- Witness for C1 amended: a state at the cap is returned unchanged even
with a pending post. -/
theorem claim_C1_amended_witness :
    processPosts cfgAllOk [simplePE "p7" "c7" "m7.mp4"]
        ⟨5, false, 5, [], []⟩ = ⟨5, false, 5, [], []⟩ :=
  claim_C1_amended cfgAllOk [simplePE "p7" "c7" "m7.mp4"]
    ⟨5, false, 5, [], []⟩ (by decide)

/-- C3 counterexample: the engine recognizes the phrasing `"The user has
exceeded the number of videos they may upload"` (returns at once, no
retry), but the orchestrator's suppression test only looks for the
substring `"uploadLimitExceeded"` in the reported error — so after such a
failure on post `p1`, the run does NOT suppress uploads: the next post
`p2` is still attempted, contradicting the claimed run-wide suppression. -/
theorem claim_C3_counterexample :
    (uploadVideoReal (fun _ => .httpErr (some 400) quotaReasonB) false
        true).attemptsMade = 1 ∧
    (uploadVideoReal (fun _ => .httpErr (some 400) quotaReasonB) false
        true).result.success = false ∧
    (processProfile cfgC3 postsC3).attempts =
      [("p1", "a.mp4"), ("p2", "b.mp4")] ∧
    (processProfile cfgC3 postsC3).limitReached = false := by
  decide

/-- The media loop of `process_profile` on a failed upload whose error text
contains `"uploadLimitExceeded"`: the run-level flag is set and the loop
over the remaining media files of the post is abandoned. -/
theorem mediaLoop_quota_break (cfg : RunCfg) (post : PostInfo)
    (media : MediaFile) (rest : List MediaFile) (m : PostMeta)
    (s : RunState) (vid : Option String) (d : UploadResult)
    (hext : videoExts.contains (pyLower media.suffix) = true)
    (hup : m.uploads.contains media.name = false)
    (ho : cfg.callOracle s.callIdx = .ret vid d)
    (hsucc : d.success = false)
    (herr : containsSub (errStr d.error) quotaReasonA = true) :
    mediaLoop cfg post (media :: rest) m s =
      (m, { s with
        callIdx := s.callIdx + 1
        attempts := s.attempts ++ [(post.base_name, media.name)]
        limitReached := true }) := by
  have hext2 : pyLower media.suffix ∈ videoExts := by simpa using hext
  have hup2 : ¬media.name ∈ m.uploads := by simpa using hup
  simp [mediaLoop, ho, hsucc, herr, hext2, hup2]

/-- With the run-level quota flag set (and the daily cap not yet reached),
the rest of the per-post loop makes no upload attempts, leaves the
counters alone, and persists exactly the freshly generated (merged)
metadata of every remaining post that the duplicate guard does not skip. -/
theorem processPosts_limitReached :
    ∀ (cfg : RunCfg) (posts : List PostEnv) (s : RunState),
    s.limitReached = true →
    s.uploads_this_run < MAX_UPLOADS_PER_DAY →
    processPosts cfg posts s =
      { s with writes := s.writes ++ posts.filterMap (fun pe =>
          if skipPost cfg pe then none
          else some (metaPath pe.post,
            mergeExisting (initMeta cfg pe.post) pe.existing)) } := by
  intro cfg posts
  induction posts with
  | nil =>
    intro s _ _
    simp [processPosts]
  | cons pe rest ih =>
    intro s hl hcap
    have hpp : processPost cfg pe s =
        if skipPost cfg pe then s
        else { s with writes := s.writes ++ [(metaPath pe.post,
          mergeExisting (initMeta cfg pe.post) pe.existing)] } := by
      simp [processPost, hl]
    have hstep : processPosts cfg (pe :: rest) s =
        processPosts cfg rest (processPost cfg pe s) := by
      simp [processPosts, Nat.not_le.mpr hcap]
    rw [hstep, hpp]
    by_cases hsk : skipPost cfg pe
    · rw [if_pos hsk]
      rw [ih s hl hcap]
      simp [List.filterMap_cons, hsk]
    · rw [if_neg hsk]
      have ih2 := ih { s with writes := s.writes ++ [(metaPath pe.post,
        mergeExisting (initMeta cfg pe.post) pe.existing)] } hl hcap
      rw [ih2]
      simp [List.filterMap_cons, hsk, List.append_assoc]

/-- C3 amended: (a) on an HTTP 400 whose content carries either quota
phrasing, `upload_video` returns a failure result immediately with no
retry; (b) the orchestrator sets the run-level halt flag — and abandons
the current post's media loop — exactly when a failed result's error text
contains the substring `"uploadLimitExceeded"` (the other phrasing does
not trigger suppression); (c) once the flag is set (and the daily cap is
not reached), every remaining post gets no upload attempt while its merged
metadata is still generated and persisted, except posts skipped by the
duplicate guard. -/
theorem claim_C3_amended :
    (∀ (oracle : Nat → AttemptOutcome) (hd w : Bool) (c : String),
      oracle 0 = .httpErr (some 400) c →
      containsSub c quotaReasonA = true ∨ containsSub c quotaReasonB = true →
      (uploadVideoReal oracle hd w).attemptsMade = 1 ∧
      (uploadVideoReal oracle hd w).videoId = none ∧
      (uploadVideoReal oracle hd w).result.success = false) ∧
    (∀ (cfg : RunCfg) (post : PostInfo) (media : MediaFile)
      (rest : List MediaFile) (m : PostMeta) (s : RunState)
      (vid : Option String) (d : UploadResult),
      videoExts.contains (pyLower media.suffix) = true →
      m.uploads.contains media.name = false →
      cfg.callOracle s.callIdx = .ret vid d →
      d.success = false →
      containsSub (errStr d.error) quotaReasonA = true →
      mediaLoop cfg post (media :: rest) m s =
        (m, { s with
          callIdx := s.callIdx + 1
          attempts := s.attempts ++ [(post.base_name, media.name)]
          limitReached := true })) ∧
    (∀ (cfg : RunCfg) (posts : List PostEnv) (s : RunState),
      s.limitReached = true →
      s.uploads_this_run < MAX_UPLOADS_PER_DAY →
      processPosts cfg posts s =
        { s with writes := s.writes ++ posts.filterMap (fun pe =>
            if skipPost cfg pe then none
            else some (metaPath pe.post,
              mergeExisting (initMeta cfg pe.post) pe.existing)) }) := by
  refine ⟨?_, mediaLoop_quota_break, processPosts_limitReached⟩
  intro oracle hd w c ho _
  have step := uploadLoop_badreq_step oracle hd w 2 0 initResult [] c ho
  have e : uploadVideoReal oracle hd w =
      ⟨none, { initResult with error := some c, retries := 1 }, 1, []⟩ := by
    simpa [uploadVideoReal, MAX_RETRIES] using step
  rw [e]
  exact ⟨rfl, rfl, rfl⟩

set_option maxRecDepth 8192 in
/-- Witness for C3 amended, instantiating all three conjuncts at concrete
inputs: a 400 with the second quota phrasing is not retried; a failed
upload with `uploadLimitExceeded` in its error sets the halt flag; and a
halted run persists metadata for a remaining post without attempting it. -/
theorem claim_C3_amended_witness :
    (uploadVideoReal (fun _ => .httpErr (some 400) quotaReasonB) true
        true).attemptsMade = 1 ∧
    (mediaLoop cfgQuotaA (simplePE "p1" "c1" "a.mp4").post
        [⟨"a.mp4", ".mp4"⟩, ⟨"b.mp4", ".mp4"⟩]
        (initMeta cfgQuotaA (simplePE "p1" "c1" "a.mp4").post)
        initRunState).2.limitReached = true ∧
    (processPosts cfgQuotaA [simplePE "p2" "c2" "b.mp4"]
        ⟨1, true, 1, [], []⟩ =
      { uploads_this_run := 1, limitReached := true, callIdx := 1,
        writes := [(metaPath (simplePE "p2" "c2" "b.mp4").post,
          mergeExisting
            (initMeta cfgQuotaA (simplePE "p2" "c2" "b.mp4").post) none)],
        attempts := [] }) := by
  refine ⟨(claim_C3_amended.1 (fun _ => .httpErr (some 400) quotaReasonB)
    true true quotaReasonB rfl (Or.inr (by decide))).1, ?_, ?_⟩
  · rw [claim_C3_amended.2.1 cfgQuotaA (simplePE "p1" "c1" "a.mp4").post
      ⟨"a.mp4", ".mp4"⟩ [⟨"b.mp4", ".mp4"⟩]
      (initMeta cfgQuotaA (simplePE "p1" "c1" "a.mp4").post) initRunState
      none quotaAFail (by decide) (by decide) rfl rfl (by decide)]
  · rw [claim_C3_amended.2.2 cfgQuotaA [simplePE "p2" "c2" "b.mp4"]
      ⟨1, true, 1, [], []⟩ rfl (by decide)]
    decide

/-- Appending a name that belongs to none of the files to the uploaded
list does not change which files are new. -/
theorem newVideoFiles_append_fresh (rest : List MediaFile)
    (u : List String) (n : String) (h : ∀ g ∈ rest, g.name ≠ n) :
    newVideoFiles rest (u ++ [n]) = newVideoFiles rest u := by
  unfold newVideoFiles
  apply List.filter_congr
  intro g hg
  have hne := h g hg
  simp [hne]

/-- The media loop of `process_profile` when every `upload_video` call
succeeds plainly: exactly the new video files (those with a video
extension whose name is not in the carried-forward `uploads` list) are
attempted, in order; their names are appended to `uploads` and one
platform id per attempted file is appended to `video_ids`. -/
theorem mediaLoop_all_success (cfg : RunCfg) (post : PostInfo)
    (hora : ∀ i, plainSuccessB (cfg.callOracle i) = true) :
    ∀ (files : List MediaFile) (m : PostMeta) (s : RunState),
    (files.map MediaFile.name).Nodup →
    ((mediaLoop cfg post files m s).1.uploads =
      m.uploads ++ (newVideoFiles files m.uploads).map MediaFile.name) ∧
    (∃ ids, (mediaLoop cfg post files m s).1.video_ids =
        m.video_ids ++ ids ∧
      ids.length = (newVideoFiles files m.uploads).length) ∧
    ((mediaLoop cfg post files m s).2.attempts =
      s.attempts ++ (newVideoFiles files m.uploads).map
        (fun f => (post.base_name, f.name))) := by
  intro files
  induction files with
  | nil =>
    intro m s _
    exact ⟨by simp [mediaLoop, newVideoFiles], ⟨[], by simp [mediaLoop],
      by simp [mediaLoop, newVideoFiles]⟩, by simp [mediaLoop, newVideoFiles]⟩
  | cons f rest ih =>
    intro m s hnodup
    have hnodup2 : (rest.map MediaFile.name).Nodup := by
      simpa using hnodup.of_cons
    by_cases hext : pyLower f.suffix ∈ videoExts
    · by_cases hin : f.name ∈ m.uploads
      · have estep : mediaLoop cfg post (f :: rest) m s =
            mediaLoop cfg post rest m s := by
          simp [mediaLoop, hext, hin]
        have enew : newVideoFiles (f :: rest) m.uploads =
            newVideoFiles rest m.uploads := by
          simp [newVideoFiles, List.filter_cons, hext, hin]
        rw [estep, enew]
        exact ih m s hnodup2
      · rcases ho : cfg.callOracle s.callIdx with ⟨vid, d⟩ | _ | msg | msg
        · rcases vid with _ | v
          · exact absurd (hora s.callIdx) (by rw [ho]; simp [plainSuccessB])
          · have hsd : d.success = true ∧ ¬v = "TEST_MODE" := by
              have hsp := hora s.callIdx
              rw [ho] at hsp
              simpa [plainSuccessB] using hsp
            have hfresh : ∀ g ∈ rest, g.name ≠ f.name := by
              intro g hg
              have hnm : f.name ∉ rest.map MediaFile.name := by
                simpa using (List.nodup_cons.mp hnodup).1
              intro hgf
              exact hnm (hgf ▸ List.mem_map_of_mem MediaFile.name hg)
            have estep : mediaLoop cfg post (f :: rest) m s =
                mediaLoop cfg post rest
                  { m with
                    video_ids := m.video_ids ++ [v]
                    uploads := m.uploads ++ [f.name]
                    upload_details := m.upload_details ++
                      [(f.name, ⟨v, cfg.now, d.hd_ready, d.retries⟩)] }
                  { s with
                    callIdx := s.callIdx + 1
                    attempts := s.attempts ++ [(post.base_name, f.name)]
                    writes := s.writes ++ [(metaPath post,
                      { m with
                        video_ids := m.video_ids ++ [v]
                        uploads := m.uploads ++ [f.name]
                        upload_details := m.upload_details ++
                          [(f.name, ⟨v, cfg.now, d.hd_ready, d.retries⟩)] })]
                    uploads_this_run := s.uploads_this_run + 1 } := by
              simp [mediaLoop, hext, hin, ho, hsd.1, hsd.2]
            have enew : newVideoFiles (f :: rest) m.uploads =
                f :: newVideoFiles rest m.uploads := by
              simp [newVideoFiles, List.filter_cons, hext, hin]
            have efresh : newVideoFiles rest (m.uploads ++ [f.name]) =
                newVideoFiles rest m.uploads :=
              newVideoFiles_append_fresh rest m.uploads f.name hfresh
            rw [estep, enew]
            obtain ⟨hup, ⟨ids, hvid, hlen⟩, hatt⟩ := ih _ _ hnodup2
            refine ⟨?_, ⟨v :: ids, ?_, ?_⟩, ?_⟩
            · rw [hup]
              simp [efresh]
            · rw [hvid]
              simp
            · simp [hlen, efresh]
            · rw [hatt]
              simp [efresh]
        · exact absurd (hora s.callIdx) (by rw [ho]; simp [plainSuccessB])
        · exact absurd (hora s.callIdx) (by rw [ho]; simp [plainSuccessB])
        · exact absurd (hora s.callIdx) (by rw [ho]; simp [plainSuccessB])
    · have estep : mediaLoop cfg post (f :: rest) m s =
          mediaLoop cfg post rest m s := by
        simp [mediaLoop, hext]
      have enew : newVideoFiles (f :: rest) m.uploads =
          newVideoFiles rest m.uploads := by
        simp [newVideoFiles, List.filter_cons, hext]
      rw [estep, enew]
      exact ih m s hnodup2

/-- C6: for a post with persisted (not-yet-uploaded) metadata, a new run
carries the prior `video_ids` and `uploads` forward into the fresh
metadata and, when every upload call succeeds, attempts exactly the video
files whose names are not in the carried-forward `uploads` list; the final
persisted metadata extends the carried lists with the new names and one
new platform id per attempted file. -/
theorem claim_C6_partial_resume :
    ∀ (cfg : RunCfg) (pe : PostEnv) (s : RunState) (e : PostMeta),
    pe.existing = some e →
    (∀ i, plainSuccessB (cfg.callOracle i) = true) →
    skipPost cfg pe = false →
    cfg.upload_videos = true →
    s.limitReached = false →
    (pe.post.media_files.map MediaFile.name).Nodup →
    ((processPost cfg pe s).attempts =
      s.attempts ++ (newVideoFiles pe.post.media_files e.uploads).map
        (fun f => (pe.post.base_name, f.name))) ∧
    (∃ m ids, (processPost cfg pe s).writes.getLast? =
        some (metaPath pe.post, m) ∧
      m.uploads = e.uploads ++
        (newVideoFiles pe.post.media_files e.uploads).map MediaFile.name ∧
      m.video_ids = e.video_ids ++ ids ∧
      ids.length = (newVideoFiles pe.post.media_files e.uploads).length) := by
  intro cfg pe s e hex hora hskip hupv hlim hnodup
  have hmu : (mergeExisting (initMeta cfg pe.post) pe.existing).uploads
      = e.uploads := by
    rw [hex]
    rfl
  have hmv : (mergeExisting (initMeta cfg pe.post) pe.existing).video_ids
      = e.video_ids := by
    rw [hex]
    rfl
  have estep : processPost cfg pe s =
      { (mediaLoop cfg pe.post pe.post.media_files
          (mergeExisting (initMeta cfg pe.post) pe.existing) s).2 with
        writes := (mediaLoop cfg pe.post pe.post.media_files
          (mergeExisting (initMeta cfg pe.post) pe.existing) s).2.writes ++
          [(metaPath pe.post,
            { (mediaLoop cfg pe.post pe.post.media_files
                (mergeExisting (initMeta cfg pe.post) pe.existing) s).1 with
              uploaded := !(mediaLoop cfg pe.post pe.post.media_files
                (mergeExisting (initMeta cfg pe.post) pe.existing)
                  s).1.video_ids.isEmpty })] } := by
    simp [processPost, hskip, hupv, hlim]
  obtain ⟨hup, ⟨ids, hvid, hlen⟩, hatt⟩ :=
    mediaLoop_all_success cfg pe.post hora pe.post.media_files
      (mergeExisting (initMeta cfg pe.post) pe.existing) s hnodup
  rw [hmu] at hup hlen
  rw [hmv] at hvid
  constructor
  · rw [estep]
    rw [hmu] at hatt
    exact hatt
  · refine ⟨{ (mediaLoop cfg pe.post pe.post.media_files
        (mergeExisting (initMeta cfg pe.post) pe.existing) s).1 with
        uploaded := !(mediaLoop cfg pe.post pe.post.media_files
          (mergeExisting (initMeta cfg pe.post) pe.existing)
            s).1.video_ids.isEmpty }, ids, ?_, ?_, ?_, hlen⟩
    · rw [estep]
      exact List.getLast?_concat _
    · exact hup
    · exact hvid

/-- Witness for C6 at the spec's concrete scenario: only `b.mp4` is
attempted, and the final metadata carries the prior id and uploads
forward. -/
theorem claim_C6_partial_resume_witness :
    ((processPost cfgAllOk peC6 initRunState).attempts =
      initRunState.attempts ++
        (newVideoFiles peC6.post.media_files priorMeta.uploads).map
          (fun f => (peC6.post.base_name, f.name))) ∧
    (∃ m ids, (processPost cfgAllOk peC6 initRunState).writes.getLast? =
        some (metaPath peC6.post, m) ∧
      m.uploads = priorMeta.uploads ++
        (newVideoFiles peC6.post.media_files priorMeta.uploads).map
          MediaFile.name ∧
      m.video_ids = priorMeta.video_ids ++ ids ∧
      ids.length =
        (newVideoFiles peC6.post.media_files priorMeta.uploads).length) ∧
    newVideoFiles peC6.post.media_files priorMeta.uploads =
      [⟨"b.mp4", ".mp4"⟩] := by
  have h := claim_C6_partial_resume cfgAllOk peC6 initRunState priorMeta
    rfl (fun i => rfl) (by decide) rfl rfl (by decide)
  exact ⟨h.1, h.2, by decide⟩

/-- The media loop never touches the `uploaded` flag, and every metadata
document it writes incrementally still carries the `uploaded` value of the
metadata it was given. -/
theorem mediaLoop_new_writes (cfg : RunCfg) (post : PostInfo) :
    ∀ (files : List MediaFile) (m : PostMeta) (s : RunState),
    (mediaLoop cfg post files m s).1.uploaded = m.uploaded ∧
    ∃ new, (mediaLoop cfg post files m s).2.writes = s.writes ++ new ∧
      ∀ w ∈ new, w.2.uploaded = m.uploaded := by
  intro files
  induction files with
  | nil =>
    intro m s
    exact ⟨rfl, [], by simp [mediaLoop], by simp⟩
  | cons f rest ih =>
    intro m s
    by_cases hext : pyLower f.suffix ∈ videoExts
    · by_cases hin : f.name ∈ m.uploads
      · have estep : mediaLoop cfg post (f :: rest) m s =
            mediaLoop cfg post rest m s := by
          simp [mediaLoop, hext, hin]
        rw [estep]
        exact ih m s
      · rcases ho : cfg.callOracle s.callIdx with ⟨vid, d⟩ | _ | msg | msg
        · by_cases hsucc : d.success = false
          · by_cases herr : containsSub (errStr d.error) quotaReasonA = true
            · have estep : mediaLoop cfg post (f :: rest) m s =
                  (m, { s with
                    callIdx := s.callIdx + 1
                    attempts := s.attempts ++ [(post.base_name, f.name)]
                    limitReached := true }) := by
                simp [mediaLoop, hext, hin, ho, hsucc, herr]
              rw [estep]
              exact ⟨rfl, [], by simp, by simp⟩
            · have estep : mediaLoop cfg post (f :: rest) m s =
                  mediaLoop cfg post rest m
                    { s with
                      callIdx := s.callIdx + 1
                      attempts := s.attempts ++ [(post.base_name, f.name)] } := by
                simp [mediaLoop, hext, hin, ho, hsucc, herr]
              rw [estep]
              exact ih m _
          · by_cases hvid : vid = none ∨ vid = some "TEST_MODE"
            · have estep : mediaLoop cfg post (f :: rest) m s =
                  mediaLoop cfg post rest m
                    { s with
                      callIdx := s.callIdx + 1
                      attempts := s.attempts ++ [(post.base_name, f.name)] } := by
                simp only [mediaLoop]
                rw [if_neg (by simpa using hext), if_neg (by simpa using hin),
                  ho]
                simp [hsucc, hvid]
              rw [estep]
              exact ih m _
            · have estep : mediaLoop cfg post (f :: rest) m s =
                  mediaLoop cfg post rest
                    { m with
                      video_ids := m.video_ids ++ [vid.getD ""]
                      uploads := m.uploads ++ [f.name]
                      upload_details := m.upload_details ++
                        [(f.name,
                          ⟨vid.getD "", cfg.now, d.hd_ready, d.retries⟩)] }
                    { s with
                      callIdx := s.callIdx + 1
                      attempts := s.attempts ++ [(post.base_name, f.name)]
                      writes := s.writes ++ [(metaPath post,
                        { m with
                          video_ids := m.video_ids ++ [vid.getD ""]
                          uploads := m.uploads ++ [f.name]
                          upload_details := m.upload_details ++
                            [(f.name,
                              ⟨vid.getD "", cfg.now, d.hd_ready,
                                d.retries⟩)] })]
                      uploads_this_run := s.uploads_this_run + 1 } := by
                simp only [mediaLoop]
                rw [if_neg (by simpa using hext), if_neg (by simpa using hin),
                  ho]
                simp [hsucc, hvid]
              rw [estep]
              obtain ⟨h1, new, h2, h3⟩ := ih _ _
              refine ⟨h1, (metaPath post,
                { m with
                  video_ids := m.video_ids ++ [vid.getD ""]
                  uploads := m.uploads ++ [f.name]
                  upload_details := m.upload_details ++
                    [(f.name,
                      ⟨vid.getD "", cfg.now, d.hd_ready, d.retries⟩)] })
                :: new, ?_, ?_⟩
              · rw [h2]
                simp
              · intro w hw
                rcases List.mem_cons.mp hw with hw | hw
                · rw [hw]
                · exact h3 w hw
        · have estep : mediaLoop cfg post (f :: rest) m s =
              (m, { s with
                callIdx := s.callIdx + 1
                attempts := s.attempts ++ [(post.base_name, f.name)]
                limitReached := true }) := by
            simp [mediaLoop, hext, hin, ho]
          rw [estep]
          exact ⟨rfl, [], by simp, by simp⟩
        · have estep : mediaLoop cfg post (f :: rest) m s =
              mediaLoop cfg post rest m
                { s with
                  callIdx := s.callIdx + 1
                  attempts := s.attempts ++ [(post.base_name, f.name)] } := by
            simp [mediaLoop, hext, hin, ho]
          rw [estep]
          exact ih m _
        · have estep : mediaLoop cfg post (f :: rest) m s =
              mediaLoop cfg post rest m
                { s with
                  callIdx := s.callIdx + 1
                  attempts := s.attempts ++ [(post.base_name, f.name)] } := by
            simp [mediaLoop, hext, hin, ho]
          rw [estep]
          exact ih m _
    · have estep : mediaLoop cfg post (f :: rest) m s =
          mediaLoop cfg post rest m s := by
        simp [mediaLoop, hext]
      rw [estep]
      exact ih m s

/-- A metadata document whose `uploaded` flag is set to the non-emptiness
of its `video_ids` satisfies the invariant. -/
theorem uploaded_flag_inv (y : PostMeta) :
    ({ y with uploaded := !y.video_ids.isEmpty } : PostMeta).uploaded = true →
    ({ y with uploaded := !y.video_ids.isEmpty } : PostMeta).video_ids
      ≠ [] := by
  intro hup hnil
  have hup2 : (!y.video_ids.isEmpty) = true := hup
  have hnil2 : y.video_ids = [] := hnil
  rw [hnil2] at hup2
  exact absurd hup2 (by decide)

/-- Every metadata document that processing one post adds to the write log
satisfies the invariant `uploaded = true → video_ids ≠ []` (assuming the
log already did). -/
theorem processPost_writes_inv (cfg : RunCfg) (pe : PostEnv) (s : RunState)
    (h : ∀ w ∈ s.writes, w.2.uploaded = true → w.2.video_ids ≠ []) :
    ∀ w ∈ (processPost cfg pe s).writes,
      w.2.uploaded = true → w.2.video_ids ≠ [] := by
  by_cases hsk : skipPost cfg pe = true
  · have estep : processPost cfg pe s = s := by
      simp [processPost, hsk]
    rw [estep]
    exact h
  · have hMu : (mergeExisting (initMeta cfg pe.post) pe.existing).uploaded
        = false :=
      (mergeExisting_fields (initMeta cfg pe.post) pe.existing).2.1
    by_cases hb : (cfg.upload_videos && !s.limitReached) = true
    · have estep : processPost cfg pe s =
          { (mediaLoop cfg pe.post pe.post.media_files
              (mergeExisting (initMeta cfg pe.post) pe.existing) s).2 with
            writes := (mediaLoop cfg pe.post pe.post.media_files
              (mergeExisting (initMeta cfg pe.post) pe.existing) s).2.writes
              ++ [(metaPath pe.post,
                { (mediaLoop cfg pe.post pe.post.media_files
                    (mergeExisting (initMeta cfg pe.post) pe.existing)
                      s).1 with
                  uploaded := !(mediaLoop cfg pe.post pe.post.media_files
                    (mergeExisting (initMeta cfg pe.post) pe.existing)
                      s).1.video_ids.isEmpty })] } := by
        simp [processPost, hsk, hb]
      obtain ⟨h1, new, h2, h3⟩ := mediaLoop_new_writes cfg pe.post
        pe.post.media_files
        (mergeExisting (initMeta cfg pe.post) pe.existing) s
      rw [estep]
      intro w hw
      simp only [h2] at hw
      rcases List.mem_append.mp hw with hw2 | hw2
      · rcases List.mem_append.mp hw2 with hw3 | hw3
        · exact h w hw3
        · intro hcontra
          rw [h3 w hw3, hMu] at hcontra
          exact absurd hcontra (by decide)
      · rcases List.mem_singleton.mp hw2 with rfl
        exact uploaded_flag_inv _
    · have estep : processPost cfg pe s =
          { s with writes := s.writes ++ [(metaPath pe.post,
            mergeExisting (initMeta cfg pe.post) pe.existing)] } := by
        simp only [processPost]
        rw [if_neg hsk]
        rw [if_neg (by simpa using hb)]
      rw [estep]
      intro w hw
      rcases List.mem_append.mp hw with hw2 | hw2
      · exact h w hw2
      · rcases List.mem_singleton.mp hw2 with rfl
        intro hcontra
        rw [hMu] at hcontra
        exact absurd hcontra (by decide)

/-- The write-log invariant holds across the whole per-post loop. -/
theorem processPosts_writes_inv (cfg : RunCfg) :
    ∀ (posts : List PostEnv) (s : RunState),
    (∀ w ∈ s.writes, w.2.uploaded = true → w.2.video_ids ≠ []) →
    ∀ w ∈ (processPosts cfg posts s).writes,
      w.2.uploaded = true → w.2.video_ids ≠ [] := by
  intro posts
  induction posts with
  | nil =>
    intro s h
    exact h
  | cons pe rest ih =>
    intro s h
    by_cases hcap : MAX_UPLOADS_PER_DAY ≤ s.uploads_this_run
    · have estep : processPosts cfg (pe :: rest) s = s := by
        simp [processPosts, hcap]
      rw [estep]
      exact h
    · have estep : processPosts cfg (pe :: rest) s =
          processPosts cfg rest (processPost cfg pe s) := by
        simp [processPosts, hcap]
      rw [estep]
      exact ih _ (processPost_writes_inv cfg pe s h)

/-- C8: every metadata document written to disk by a run satisfies
`uploaded = true → video_ids ≠ []`; and for every post that is not
skipped, a final metadata document is persisted (it is the last write of
the post's processing) in which, when the upload step ran for this post,
`uploaded` is set exactly to whether `video_ids` is non-empty — and which
is persisted even when no upload was attempted. -/
theorem claim_C8_uploaded_invariant :
    ∀ (cfg : RunCfg) (posts : List PostEnv),
    (∀ w ∈ (processProfile cfg posts).writes,
      w.2.uploaded = true → w.2.video_ids ≠ []) ∧
    (∀ (pe : PostEnv) (s : RunState), skipPost cfg pe = false →
      ∃ m, (processPost cfg pe s).writes.getLast? =
          some (metaPath pe.post, m) ∧
        (m.uploaded = true → m.video_ids ≠ []) ∧
        ((cfg.upload_videos && !s.limitReached) = true →
          m.uploaded = !m.video_ids.isEmpty)) := by
  intro cfg posts
  constructor
  · exact processPosts_writes_inv cfg posts initRunState (by simp [initRunState])
  · intro pe s hsk
    by_cases hb : (cfg.upload_videos && !s.limitReached) = true
    · have estep : processPost cfg pe s =
          { (mediaLoop cfg pe.post pe.post.media_files
              (mergeExisting (initMeta cfg pe.post) pe.existing) s).2 with
            writes := (mediaLoop cfg pe.post pe.post.media_files
              (mergeExisting (initMeta cfg pe.post) pe.existing) s).2.writes
              ++ [(metaPath pe.post,
                { (mediaLoop cfg pe.post pe.post.media_files
                    (mergeExisting (initMeta cfg pe.post) pe.existing)
                      s).1 with
                  uploaded := !(mediaLoop cfg pe.post pe.post.media_files
                    (mergeExisting (initMeta cfg pe.post) pe.existing)
                      s).1.video_ids.isEmpty })] } := by
        simp [processPost, hsk, hb]
      refine ⟨{ (mediaLoop cfg pe.post pe.post.media_files
          (mergeExisting (initMeta cfg pe.post) pe.existing) s).1 with
          uploaded := !(mediaLoop cfg pe.post pe.post.media_files
            (mergeExisting (initMeta cfg pe.post) pe.existing)
              s).1.video_ids.isEmpty }, ?_, ?_, fun _ => rfl⟩
      · rw [estep]
        exact List.getLast?_concat _
      · exact uploaded_flag_inv _
    · have estep : processPost cfg pe s =
          { s with writes := s.writes ++ [(metaPath pe.post,
            mergeExisting (initMeta cfg pe.post) pe.existing)] } := by
        simp only [processPost]
        rw [if_neg (by simpa using hsk)]
        rw [if_neg (by simpa using hb)]
      refine ⟨mergeExisting (initMeta cfg pe.post) pe.existing, ?_, ?_, ?_⟩
      · rw [estep]
        exact List.getLast?_concat _
      · intro hcontra
        have hMu : (mergeExisting (initMeta cfg pe.post)
            pe.existing).uploaded = false :=
          (mergeExisting_fields (initMeta cfg pe.post) pe.existing).2.1
        rw [hMu] at hcontra
        exact absurd hcontra (by decide)
      · intro hcontra
        exact absurd hcontra hb

set_option maxRecDepth 8192 in
/-- Witness for C8: the final metadata of a concrete post processed with
uploads enabled, and the write-log invariant applied to that run's second
(final) write, whose `uploaded` flag is set. -/
theorem claim_C8_uploaded_invariant_witness :
    (((processProfile cfgAllOk [simplePE "p1" "c1" "m1.mp4"]).writes.get
        ⟨1, by decide⟩).2.video_ids ≠ []) ∧
    (∃ m, (processPost cfgAllOk (simplePE "p1" "c1" "m1.mp4")
        initRunState).writes.getLast? =
        some (metaPath (simplePE "p1" "c1" "m1.mp4").post, m) ∧
      (m.uploaded = true → m.video_ids ≠ []) ∧
      ((cfgAllOk.upload_videos && !initRunState.limitReached) = true →
        m.uploaded = !m.video_ids.isEmpty)) :=
  ⟨(claim_C8_uploaded_invariant cfgAllOk [simplePE "p1" "c1" "m1.mp4"]).1
      ((processProfile cfgAllOk [simplePE "p1" "c1" "m1.mp4"]).writes.get
        ⟨1, by decide⟩) (by decide) (by decide),
   (claim_C8_uploaded_invariant cfgAllOk [simplePE "p1" "c1" "m1.mp4"]).2
    (simplePE "p1" "c1" "m1.mp4") initRunState (by decide)⟩
